import Mathlib

/-!
Shallow embedding of the FundScope ranking and alert-detection engine
(`backend/engine/ranking.py`).  Nullable Python floats are modelled as
`Option ℚ`; pandas nullable integers (`Int64` with `pd.NA`) as `Option Nat`
or `Option Int`.  A `none` in a float column stands for the NaN that pandas
stores there; a column whose entries are all `none` stays an object column
holding Python `None` (this distinction matters only for the truthiness
test in `float(x or 0)`, see `returnValueOf`).
-/

namespace Fundscope

/-- The three return periods ranked by the engine ("1m", "3m", "6m"). -/
inductive Period
  | m1
  | m3
  | m6
deriving DecidableEq

/-- One fund's weekly performance record, as produced by the scraper: the
`return_*` keys are always present, holding a float or `None`. -/
structure Perf where
  fund_id : String
  fund_name : String
  return_1m : Option ℚ
  return_3m : Option ℚ
  return_6m : Option ℚ
deriving DecidableEq

/-- The fund's return for a given period (`row[f"return_{p}"]`). -/
def Perf.ret (f : Perf) : Period → Option ℚ
  | Period.m1 => f.return_1m
  | Period.m3 => f.return_3m
  | Period.m6 => f.return_6m

/-- A prior-week ranking row as read back from the `fund_rankings` table:
every field is an SQL integer or NULL. -/
structure PriorRow where
  fund_id : String
  decile_1m : Option Int
  decile_3m : Option Int
  decile_6m : Option Int
  quartile_1m : Option Int
  quartile_3m : Option Int
  quartile_6m : Option Int
  streak_1m : Option Int
  streak_3m : Option Int
  streak_6m : Option Int
deriving DecidableEq

def PriorRow.decile (r : PriorRow) : Period → Option Int
  | Period.m1 => r.decile_1m
  | Period.m3 => r.decile_3m
  | Period.m6 => r.decile_6m

def PriorRow.quartile (r : PriorRow) : Period → Option Int
  | Period.m1 => r.quartile_1m
  | Period.m3 => r.quartile_3m
  | Period.m6 => r.quartile_6m

def PriorRow.streak (r : PriorRow) : Period → Option Int
  | Period.m1 => r.streak_1m
  | Period.m3 => r.streak_3m
  | Period.m6 => r.streak_6m

/-- One emitted alert event (the dict appended to `alerts`). -/
structure AlertEvent where
  fund_id : String
  sector_code : String
  week_date : String
  alert_type : String
  period : Period
  prev_decile : Nat
  curr_decile : Option Nat
  streak_broken : Int
  return_value : Option ℚ
deriving DecidableEq

/-- One output ranking row (the dict appended to `rankings`). -/
structure RankingRow where
  fund_id : String
  sector_code : String
  week_date : String
  decile_1m : Option Nat
  decile_3m : Option Nat
  decile_6m : Option Nat
  quartile_1m : Option Nat
  quartile_3m : Option Nat
  quartile_6m : Option Nat
  rank_1m : Option Nat
  rank_3m : Option Nat
  rank_6m : Option Nat
  total_in_sector : Nat
  streak_1m : Int
  streak_3m : Int
  streak_6m : Int
deriving DecidableEq

def RankingRow.decile (r : RankingRow) : Period → Option Nat
  | Period.m1 => r.decile_1m
  | Period.m3 => r.decile_3m
  | Period.m6 => r.decile_6m

def RankingRow.quartile (r : RankingRow) : Period → Option Nat
  | Period.m1 => r.quartile_1m
  | Period.m3 => r.quartile_3m
  | Period.m6 => r.quartile_6m

def RankingRow.rank (r : RankingRow) : Period → Option Nat
  | Period.m1 => r.rank_1m
  | Period.m3 => r.rank_3m
  | Period.m6 => r.rank_6m

def RankingRow.streak (r : RankingRow) : Period → Int
  | Period.m1 => r.streak_1m
  | Period.m3 => r.streak_3m
  | Period.m6 => r.streak_6m

/-- One entry of the top-3 digest list. -/
structure Top3Entry where
  rank : Nat
  fund_id : String
  fund_name : String
  sector_code : String
  sector_name : String
  return_6m : ℚ
  return_3m : Option ℚ
  return_1m : Option ℚ
deriving DecidableEq

/-- The dict returned by `rank_sector`. -/
structure SectorResult where
  rankings : List RankingRow
  alerts : List AlertEvent
  top3 : List Top3Entry
  use_quartiles : Bool
  n : Nat

/-- The series `df[f"return_{p}"]`: one entry per fund, in input order. -/
def column (perfs : List Perf) (p : Period) : List (Option ℚ) :=
  perfs.map (fun f => f.ret p)

/-- The series `series.dropna()` keeping original positions as labels:
the non-null entries of the column, paired with their original index. -/
def validPairs (col : List (Option ℚ)) : List (Nat × ℚ) :=
  col.enum.filterMap (fun jo => jo.2.map (fun v => (jo.1, v)))

/-- Entry `a` precedes entry `b` in the descending `method="first"` order:
a strictly larger value, or an equal value at an earlier original index. -/
def Prec (a b : Nat × ℚ) : Prop :=
  b.2 < a.2 ∨ (a.2 = b.2 ∧ a.1 < b.1)

instance (a b : Nat × ℚ) : Decidable (Prec a b) := by unfold Prec; infer_instance

/-- Boolean form of `Prec`, used by the executable ranking. -/
def beats (a b : Nat × ℚ) : Bool :=
  decide (Prec a b)

/-- The rank `valid.rank(ascending=False, method="first")` assigns to the
valid entry `iv`: one plus the number of valid entries preceding it. -/
def firstRank (valid : List (Nat × ℚ)) (iv : Nat × ℚ) : Nat :=
  1 + valid.countP (fun jw => beats jw iv)

/-- Python's `assign_ranks`: ranks over the valid pool when it has at least
one member, scattered back to the original positions; `none` elsewhere. -/
def assign_ranks (col : List (Option ℚ)) : List (Option Nat) :=
  if (validPairs col).length < 1 then col.map (fun _ => none)
  else col.enum.map (fun io =>
    io.2.map (fun v => firstRank (validPairs col) (io.1, v)))

/-- The decile bucket `np.ceil(rank / n * 10).clip(1, 10)` for pool size
`n` and rank `r`, as exact arithmetic (ceiling division). -/
def decileOf (n r : Nat) : Nat :=
  min 10 (max 1 ((r * 10 + n - 1) / n))

/-- The quartile bucket `np.ceil(rank / n * 4).clip(1, 4)`. -/
def quartileOf (n r : Nat) : Nat :=
  min 4 (max 1 ((r * 4 + n - 1) / n))

/-- Python's `assign_deciles`: `none` everywhere when the valid pool has
fewer than 2 members, otherwise the decile of each valid entry's rank. -/
def assign_deciles (col : List (Option ℚ)) : List (Option Nat) :=
  if (validPairs col).length < 2 then col.map (fun _ => none)
  else col.enum.map (fun io =>
    io.2.map (fun v =>
      decileOf (validPairs col).length (firstRank (validPairs col) (io.1, v))))

/-- Python's `assign_quartiles`, same shape as `assign_deciles`. -/
def assign_quartiles (col : List (Option ℚ)) : List (Option Nat) :=
  if (validPairs col).length < 2 then col.map (fun _ => none)
  else col.enum.map (fun io =>
    io.2.map (fun v =>
      quartileOf (validPairs col).length (firstRank (validPairs col) (io.1, v))))

/-- Python's `int(x or d)` for a nullable integer `x`: the default when the
value is absent, `None` or `0` (all falsy), the value itself otherwise. -/
def pyOrInt (d : Int) (v : Option Int) : Int :=
  match v with
  | none => d
  | some k => if k = 0 then d else k

/-- The row `prior_map.get(fid, {})`: the dict comprehension keeps the last
row for a duplicated fund id, and `{}` stands for no prior row. -/
def priorFor (prior : List PriorRow) (fid : String) : Option PriorRow :=
  prior.reverse.find? (fun r => r.fund_id == fid)

/-- Python's `prev_streak = int(prev.get(f"streak_{p}", 0) or 0)`. -/
def prevStreak (prior : List PriorRow) (fid : String) (p : Period) : Int :=
  match priorFor prior fid with
  | none => 0
  | some r => pyOrInt 0 (r.streak p)

/-- Python's `was_top = int(prev.get(f"quartile_{p}", 99) or 99) == 1`
(quartile field under quartile mode, decile field otherwise): the 99
sentinel makes an absent fund, an absent key and a NULL all "not top". -/
def wasTop (useQ : Bool) (prior : List PriorRow) (fid : String) (p : Period) : Bool :=
  let tier : Option Int :=
    match priorFor prior fid with
    | none => none
    | some r => if useQ then r.quartile p else r.decile p
  pyOrInt 99 tier == 1

/-- Python's `in_top = (cq == 1) if use_q else (cd == 1)`. -/
def inTop (useQ : Bool) (cd cq : Option Nat) : Bool :=
  if useQ then cq == some 1 else cd == some 1

/-- Whether the pandas column holds at least one real value, i.e. was
inferred as a float column (so its nulls are NaN, not `None`). -/
def colHasValue (col : List (Option ℚ)) : Bool :=
  col.any (fun o => o.isSome)

/-- Python's `float(row.get(f"return_{p}") or 0)`.  When the column is a
float column a null return is stored as NaN, which is truthy, so `or 0`
keeps it and the field is NaN (modelled `none`).  Only when every entry of
the column is null does the row hold a genuine `None` (falsy), giving 0.0.
A present value `v` gives `v` (for `v = 0`, `0.0 or 0` is `0`, still 0.0). -/
def returnValueOf (col : List (Option ℚ)) (r : Option ℚ) : Option ℚ :=
  match r with
  | none => if colHasValue col then none else some 0
  | some v => some v

/-- Placeholder fund used only to totalise list indexing; every index the
engine uses is in range, so it is never observed. -/
def defaultPerf : Perf :=
  ⟨"", "", none, none, none⟩

/-- The alert optionally emitted for fund index `i` and period `p`
(lines 79-95 of `ranking.py`). -/
def alertAt (perfs : List Perf) (prior : List PriorRow) (useQ : Bool)
    (sc wd : String) (i : Nat) (p : Period) : Option AlertEvent :=
  let col := column perfs p
  let cd := (assign_deciles col).getD i none
  let cq := (assign_quartiles col).getD i none
  let f := perfs.getD i defaultPerf
  let ps := prevStreak prior f.fund_id p
  if useQ then
    if wasTop true prior f.fund_id p && !(cq == some 1) then
      some ⟨f.fund_id, sc, wd, "quartile_drop", p, 1, cq, ps,
            returnValueOf col (f.ret p)⟩
    else none
  else
    if wasTop false prior f.fund_id p && !(cd == some 1) then
      some ⟨f.fund_id, sc, wd, "decile_drop", p, 1, cd, ps,
            returnValueOf col (f.ret p)⟩
    else none

/-- The streak written into this week's row for fund index `i`, period `p`:
`prev_streak + 1 if in_top else 0`. -/
def streakAt (perfs : List Perf) (prior : List PriorRow) (useQ : Bool)
    (i : Nat) (p : Period) : Int :=
  let col := column perfs p
  let cd := (assign_deciles col).getD i none
  let cq := (assign_quartiles col).getD i none
  let f := perfs.getD i defaultPerf
  if inTop useQ cd cq then prevStreak prior f.fund_id p + 1 else 0

/-- The ranking row built for fund index `i` (lines 99-108). -/
def rowAt (perfs : List Perf) (prior : List PriorRow) (useQ : Bool)
    (sc wd : String) (n : Nat) (i : Nat) : RankingRow :=
  let dec := fun p => (assign_deciles (column perfs p)).getD i none
  let quart := fun p => (assign_quartiles (column perfs p)).getD i none
  let rk := fun p => (assign_ranks (column perfs p)).getD i none
  let f := perfs.getD i defaultPerf
  ⟨f.fund_id, sc, wd,
   dec Period.m1, dec Period.m3, dec Period.m6,
   quart Period.m1, quart Period.m3, quart Period.m6,
   rk Period.m1, rk Period.m3, rk Period.m6,
   n,
   streakAt perfs prior useQ i Period.m1,
   streakAt perfs prior useQ i Period.m3,
   streakAt perfs prior useQ i Period.m6⟩

/-- Insert one labelled entry into a list kept in descending-return order,
placing it after all entries with an equal or larger return. -/
def insertDesc (x : Nat × ℚ) : List (Nat × ℚ) → List (Nat × ℚ)
  | [] => [x]
  | y :: ys => if y.2 < x.2 then x :: y :: ys else y :: insertDesc x ys

/-- Stable descending sort by return: the order pandas `nlargest`
(`keep="first"`) ranks rows in. -/
def sortDesc (l : List (Nat × ℚ)) : List (Nat × ℚ) :=
  l.foldl (fun acc x => insertDesc x acc) []

/-- Lines 110-117: `df.dropna(subset=["return_6m"]).nlargest(3, "return_6m")`
rendered into the digest entries — the first three rows of the stable
descending sort of the valid 6-month pool. -/
def top3Of (perfs : List Perf) (sc sn : String) : List Top3Entry :=
  let pairs := validPairs (column perfs Period.m6)
  let best := (sortDesc pairs).take 3
  best.enum.map (fun ke =>
    let f := perfs.getD ke.2.1 defaultPerf
    ⟨ke.1 + 1, f.fund_id, f.fund_name, sc, sn, ke.2.2, f.return_3m, f.return_1m⟩)

/-- The loop order `for p in ["1m", "3m", "6m"]`. -/
def periods : List Period :=
  [Period.m1, Period.m3, Period.m6]

/-- Python's `rank_sector` (lines 40-119). -/
def rank_sector (sector_code sector_name : String) (performances : List Perf)
    (week_date : String) (prior : List PriorRow)
    (quartile_threshold : Nat) (min_funds : Nat) : SectorResult :=
  if performances.isEmpty then ⟨[], [], [], false, 0⟩
  else
    let n := performances.length
    if n < min_funds then ⟨[], [], [], false, n⟩
    else
      let useQ := decide (n < quartile_threshold)
      let rankings := (List.range n).map
        (rowAt performances prior useQ sector_code week_date n)
      let alerts := (List.range n).flatMap (fun i =>
        periods.filterMap (alertAt performances prior useQ sector_code week_date i))
      ⟨rankings, alerts, top3Of performances sector_code sector_name, useQ, n⟩

/-- The current-week top-tier membership test applied at fund index `i`
and period `p`: quartile 1 under quartile mode, decile 1 otherwise. -/
def currTopAt (perfs : List Perf) (useQ : Bool) (i : Nat) (p : Period) : Bool :=
  inTop useQ ((assign_deciles (column perfs p)).getD i none)
    ((assign_quartiles (column perfs p)).getD i none)

/-- Placeholder ranking row used only to totalise list indexing. -/
def defaultRow : RankingRow :=
  ⟨"", "", "", none, none, none, none, none, none, none, none, none, 0, 0, 0, 0⟩

/-- Placeholder digest entry used only to totalise list indexing. -/
def defaultTop3 : Top3Entry :=
  ⟨0, "", "", "", "", 0, none, none⟩

/-! ### Concrete test fixtures -/

/-- A sector of three funds (below the default `min_funds` of 5). -/
def exampleThree : List Perf :=
  [⟨"F1", "Fund 1", some 1, some 2, some 3⟩,
   ⟨"F2", "Fund 2", some 2, some 3, some 4⟩,
   ⟨"F3", "Fund 3", some 3, some 4, some 5⟩]

/-- Five funds where only the first has a 1-month return: the 1-month
valid pool has exactly one member. -/
def exampleSmallPool : List Perf :=
  [⟨"A", "Fund A", some 3, none, none⟩,
   ⟨"B", "Fund B", none, none, none⟩,
   ⟨"C", "Fund C", none, none, none⟩,
   ⟨"D", "Fund D", none, none, none⟩,
   ⟨"E", "Fund E", none, none, none⟩]

/-- Five funds where fund A has a null 1-month return while the others
have values, so the 1-month column is a float column and A's null is NaN. -/
def exampleNullReturn : List Perf :=
  [⟨"A", "Fund A", none, none, none⟩,
   ⟨"B", "Fund B", some 1, none, none⟩,
   ⟨"C", "Fund C", some 2, none, none⟩,
   ⟨"D", "Fund D", some 3, none, none⟩,
   ⟨"E", "Fund E", some 4, none, none⟩]

/-- A prior row putting fund A in quartile 1 for 1-month with streak 2. -/
def examplePrior : PriorRow :=
  ⟨"A", none, none, none, some 1, none, none, some 2, none, none⟩

/-- The single alert `rank_sector` emits for `exampleNullReturn` with
`examplePrior`: fund A drops out of quartile 1 with a NaN return. -/
def exampleAlert : AlertEvent :=
  ⟨"A", "S", "w", "quartile_drop", Period.m1, 1, none, 2, none⟩

/-- A column with an exact tie between positions 0 and 2. -/
def exampleTies : List (Option ℚ) :=
  [some 5, some 7, some 5]

/-- Twenty distinct returns in descending order: position `i` holds the
rank-`i+1` return. -/
def exampleTwenty : List (Option ℚ) :=
  [some 20, some 19, some 18, some 17, some 16, some 15, some 14, some 13,
   some 12, some 11, some 10, some 9, some 8, some 7, some 6, some 5,
   some 4, some 3, some 2, some 1]

/-- Scenario B of the spec: 6-month returns [12.5, 9, 15, null, 7]. -/
def exampleScenB : List Perf :=
  [⟨"A", "Fund A", some 1, some 2, some (25 / 2)⟩,
   ⟨"B", "Fund B", some 1, some 2, some 9⟩,
   ⟨"C", "Fund C", some 1, some 2, some 15⟩,
   ⟨"D", "Fund D", none, none, none⟩,
   ⟨"E", "Fund E", some 1, some 2, some 7⟩]

/-! ### The descending first-occurrence order -/

theorem Prec_irrefl (a : Nat × ℚ) : ¬ Prec a a := by
  rintro (h | ⟨-, h⟩)
  · exact lt_irrefl _ h
  · exact lt_irrefl _ h

theorem Prec_asymm {a b : Nat × ℚ} (h : Prec a b) : ¬ Prec b a := by
  rintro (h' | ⟨he', hi'⟩) <;> rcases h with h | ⟨he, hi⟩
  · exact lt_asymm h h'
  · exact lt_irrefl _ (he ▸ h')
  · exact lt_irrefl _ (he' ▸ h)
  · exact lt_irrefl _ (Nat.lt_trans hi hi')

theorem beats_eq_true {a b : Nat × ℚ} : beats a b = true ↔ Prec a b := by
  simp [beats]

/-! ### The stable descending insertion sort -/

theorem insertDesc_perm (x : Nat × ℚ) (l : List (Nat × ℚ)) :
    List.Perm (insertDesc x l) (x :: l) := by
  induction l with
  | nil => exact List.Perm.refl _
  | cons y ys ih =>
    unfold insertDesc
    split
    · exact List.Perm.refl _
    · exact (ih.cons y).trans (List.Perm.swap x y ys)

theorem foldl_insertDesc_perm (l acc : List (Nat × ℚ)) :
    List.Perm (l.foldl (fun a x => insertDesc x a) acc) (acc ++ l) := by
  induction l generalizing acc with
  | nil => simp
  | cons x xs ih =>
    have h1 := ih (insertDesc x acc)
    have h2 := (insertDesc_perm x acc).append_right xs
    have h3 := (@List.perm_middle _ x acc xs).symm
    exact (h1.trans h2).trans h3

theorem sortDesc_perm (l : List (Nat × ℚ)) : List.Perm (sortDesc l) l := by
  simpa using foldl_insertDesc_perm l []

theorem insertDesc_pairwise {x : Nat × ℚ} {l : List (Nat × ℚ)}
    (hl : l.Pairwise Prec) (hidx : ∀ a ∈ l, a.1 < x.1) :
    (insertDesc x l).Pairwise Prec := by
  induction l with
  | nil => simp [insertDesc]
  | cons y ys ih =>
    rcases List.pairwise_cons.mp hl with ⟨hy, hys⟩
    unfold insertDesc
    split
    · rename_i hlt
      refine List.Pairwise.cons ?_ hl
      intro z hz
      rcases List.mem_cons.mp hz with rfl | hz'
      · exact Or.inl hlt
      · rcases hy z hz' with h | ⟨he, -⟩
        · exact Or.inl (lt_trans h hlt)
        · exact Or.inl (he ▸ hlt)
    · rename_i hnlt
      refine List.Pairwise.cons ?_
        (ih hys (fun a ha => hidx a (List.mem_cons_of_mem _ ha)))
      intro z hz
      rcases List.mem_cons.mp ((insertDesc_perm x ys).mem_iff.mp hz) with rfl | hz'
      · rcases lt_or_eq_of_le (le_of_not_lt hnlt) with h | h
        · exact Or.inl h
        · exact Or.inr ⟨h.symm, hidx y (List.mem_cons_self y ys)⟩
      · exact hy z hz'

theorem foldl_insertDesc_pairwise {l acc : List (Nat × ℚ)}
    (hacc : acc.Pairwise Prec)
    (hsep : ∀ a ∈ acc, ∀ x ∈ l, a.1 < x.1)
    (hl : l.Pairwise fun a b => a.1 < b.1) :
    (l.foldl (fun a x => insertDesc x a) acc).Pairwise Prec := by
  induction l generalizing acc with
  | nil => exact hacc
  | cons x xs ih =>
    rcases List.pairwise_cons.mp hl with ⟨hx, hxs⟩
    refine ih (insertDesc_pairwise hacc
      (fun a ha => hsep a ha x (List.mem_cons_self x xs))) ?_ hxs
    intro a ha z hz
    rcases List.mem_cons.mp ((insertDesc_perm x acc).mem_iff.mp ha) with rfl | ha'
    · exact hx z hz
    · exact hsep a ha' z (List.mem_cons_of_mem _ hz)

theorem sortDesc_pairwise {l : List (Nat × ℚ)}
    (h : l.Pairwise fun a b => a.1 < b.1) :
    (sortDesc l).Pairwise Prec :=
  foldl_insertDesc_pairwise List.Pairwise.nil (by simp) h

/-! ### The valid pool -/

theorem validPairs_pairwise_idx (col : List (Option ℚ)) :
    (validPairs col).Pairwise fun a b => a.1 < b.1 := by
  unfold validPairs
  rw [List.pairwise_filterMap, List.pairwise_iff_getElem]
  intro i j hi hj hij b hb b' hb'
  rw [List.getElem_enum] at hb hb'
  rcases Option.map_eq_some'.mp hb with ⟨v, -, rfl⟩
  rcases Option.map_eq_some'.mp hb' with ⟨w, -, rfl⟩
  exact hij

theorem mem_validPairs {col : List (Option ℚ)} {i : Nat} {v : ℚ} :
    (i, v) ∈ validPairs col ↔ i < col.length ∧ col.getD i none = some v := by
  unfold validPairs
  rw [List.mem_filterMap]
  constructor
  · rintro ⟨⟨j, o⟩, hmem, hmap⟩
    rcases Option.map_eq_some'.mp hmap with ⟨w, ho, heq⟩
    rcases Prod.mk.injEq .. ▸ heq with ⟨rfl, rfl⟩
    rcases List.mem_enum hmem with ⟨hj, ho2⟩
    refine ⟨hj, ?_⟩
    rw [List.getD_eq_getElem _ _ hj, ← ho2]
    exact ho
  · rintro ⟨hi, hv⟩
    have hci : col[i] = some v := by rw [← List.getD_eq_getElem col none hi, hv]
    refine ⟨(i, col[i]), ?_, by rw [hci]; rfl⟩
    have hi2 : i < col.enum.length := by simpa [List.enum_length] using hi
    have he : col.enum[i] = (i, col[i]) := List.getElem_enum ..
    exact he ▸ List.getElem_mem hi2

/-! ### Counting predecessors in a sorted list -/

theorem countP_beats_of_pairwise {s : List (Nat × ℚ)} (hs : s.Pairwise Prec)
    {k : Nat} (hk : k < s.length) :
    s.countP (fun y => beats y s[k]) = k := by
  induction s generalizing k with
  | nil => simp at hk
  | cons a t ih =>
    rcases List.pairwise_cons.mp hs with ⟨ha, ht⟩
    cases k with
    | zero =>
      have h1 : beats a a = false := by
        simp only [beats, decide_eq_false_iff_not]
        exact Prec_irrefl a
      have h2 : t.countP (fun y => beats y a) = 0 := by
        refine List.countP_eq_zero.mpr fun y hy => ?_
        simp only [beats, decide_eq_true_eq]
        exact Prec_asymm (ha y hy)
      simp [List.countP_cons, h1, h2]
    | succ k =>
      have hk' : k < t.length := by simpa using hk
      have h1 : beats a t[k] = true :=
        beats_eq_true.mpr (ha _ (List.getElem_mem hk'))
      simp [List.countP_cons, List.getElem_cons_succ, h1, ih ht hk']

theorem firstRank_sortDesc_getElem (col : List (Option ℚ))
    {k : Nat} (hk : k < (sortDesc (validPairs col)).length) :
    firstRank (validPairs col) ((sortDesc (validPairs col))[k]) = k + 1 := by
  unfold firstRank
  rw [← (sortDesc_perm (validPairs col)).countP_eq,
    countP_beats_of_pairwise (sortDesc_pairwise (validPairs_pairwise_idx col)) hk]
  omega

/-! ### Indexing the assign functions -/

theorem column_length (perfs : List Perf) (p : Period) :
    (column perfs p).length = perfs.length := by
  simp [column]

theorem column_getD {perfs : List Perf} {p : Period} {i : Nat}
    (hi : i < perfs.length) :
    (column perfs p).getD i none = (perfs.getD i defaultPerf).ret p := by
  rw [List.getD_eq_getElem _ _ (by simpa [column_length] using hi),
    List.getD_eq_getElem _ _ hi]
  simp [column]

theorem assign_ranks_getD_some {col : List (Option ℚ)} {i : Nat} {v : ℚ}
    (hi : i < col.length) (hv : col.getD i none = some v) :
    (assign_ranks col).getD i none
      = some (firstRank (validPairs col) (i, v)) := by
  have hmem : (i, v) ∈ validPairs col := mem_validPairs.mpr ⟨hi, hv⟩
  have hlen : ¬ (validPairs col).length < 1 := by
    have := List.length_pos.mpr (List.ne_nil_of_mem hmem); omega
  have hci : col[i] = some v := by rw [← List.getD_eq_getElem col none hi, hv]
  unfold assign_ranks
  rw [if_neg hlen,
    List.getD_eq_getElem _ _ (by simpa [List.enum_length] using hi),
    List.getElem_map, List.getElem_enum, hci]
  rfl

theorem assign_ranks_getD_none {col : List (Option ℚ)} {i : Nat}
    (hi : i < col.length) (hv : col.getD i none = none) :
    (assign_ranks col).getD i none = none := by
  have hci : col[i] = none := by rw [← List.getD_eq_getElem col none hi, hv]
  unfold assign_ranks
  split
  · rw [List.getD_eq_getElem _ _ (by simpa using hi), List.getElem_map]
  · rw [List.getD_eq_getElem _ _ (by simpa [List.enum_length] using hi),
      List.getElem_map, List.getElem_enum, hci]
    rfl

theorem assign_deciles_getD_some {col : List (Option ℚ)} {i : Nat} {v : ℚ}
    (h2 : 2 ≤ (validPairs col).length)
    (hi : i < col.length) (hv : col.getD i none = some v) :
    (assign_deciles col).getD i none
      = some (decileOf (validPairs col).length
          (firstRank (validPairs col) (i, v))) := by
  have hci : col[i] = some v := by rw [← List.getD_eq_getElem col none hi, hv]
  unfold assign_deciles
  rw [if_neg (by omega),
    List.getD_eq_getElem _ _ (by simpa [List.enum_length] using hi),
    List.getElem_map, List.getElem_enum, hci]
  rfl

theorem assign_deciles_getD_none {col : List (Option ℚ)} {i : Nat}
    (hi : i < col.length) (hv : col.getD i none = none) :
    (assign_deciles col).getD i none = none := by
  have hci : col[i] = none := by rw [← List.getD_eq_getElem col none hi, hv]
  unfold assign_deciles
  split
  · rw [List.getD_eq_getElem _ _ (by simpa using hi), List.getElem_map]
  · rw [List.getD_eq_getElem _ _ (by simpa [List.enum_length] using hi),
      List.getElem_map, List.getElem_enum, hci]
    rfl

theorem assign_deciles_getD_small {col : List (Option ℚ)} {i : Nat}
    (hsmall : (validPairs col).length < 2) (hi : i < col.length) :
    (assign_deciles col).getD i none = none := by
  unfold assign_deciles
  rw [if_pos hsmall, List.getD_eq_getElem _ _ (by simpa using hi),
    List.getElem_map]

theorem assign_quartiles_getD_some {col : List (Option ℚ)} {i : Nat} {v : ℚ}
    (h2 : 2 ≤ (validPairs col).length)
    (hi : i < col.length) (hv : col.getD i none = some v) :
    (assign_quartiles col).getD i none
      = some (quartileOf (validPairs col).length
          (firstRank (validPairs col) (i, v))) := by
  have hci : col[i] = some v := by rw [← List.getD_eq_getElem col none hi, hv]
  unfold assign_quartiles
  rw [if_neg (by omega),
    List.getD_eq_getElem _ _ (by simpa [List.enum_length] using hi),
    List.getElem_map, List.getElem_enum, hci]
  rfl

theorem assign_quartiles_getD_none {col : List (Option ℚ)} {i : Nat}
    (hi : i < col.length) (hv : col.getD i none = none) :
    (assign_quartiles col).getD i none = none := by
  have hci : col[i] = none := by rw [← List.getD_eq_getElem col none hi, hv]
  unfold assign_quartiles
  split
  · rw [List.getD_eq_getElem _ _ (by simpa using hi), List.getElem_map]
  · rw [List.getD_eq_getElem _ _ (by simpa [List.enum_length] using hi),
      List.getElem_map, List.getElem_enum, hci]
    rfl

theorem assign_quartiles_getD_small {col : List (Option ℚ)} {i : Nat}
    (hsmall : (validPairs col).length < 2) (hi : i < col.length) :
    (assign_quartiles col).getD i none = none := by
  unfold assign_quartiles
  rw [if_pos hsmall, List.getD_eq_getElem _ _ (by simpa using hi),
    List.getElem_map]

/-! ### Unfolding rank_sector -/

theorem rank_sector_eq_of_ge {sc sn wd : String} {perfs : List Perf}
    {prior : List PriorRow} {qt mf : Nat}
    (hne : perfs ≠ []) (hmf : mf ≤ perfs.length) :
    rank_sector sc sn perfs wd prior qt mf =
      ⟨(List.range perfs.length).map
          (rowAt perfs prior (decide (perfs.length < qt)) sc wd perfs.length),
        (List.range perfs.length).flatMap (fun i =>
          periods.filterMap
            (alertAt perfs prior (decide (perfs.length < qt)) sc wd i)),
        top3Of perfs sc sn,
        decide (perfs.length < qt),
        perfs.length⟩ := by
  have h1 : perfs.isEmpty = false := List.isEmpty_eq_false.mpr hne
  have h2 : ¬ perfs.length < mf := by omega
  simp [rank_sector, h1, h2]

theorem rank_sector_eq_of_lt {sc sn wd : String} {perfs : List Perf}
    {prior : List PriorRow} {qt mf : Nat}
    (h : perfs.length < mf) :
    rank_sector sc sn perfs wd prior qt mf = ⟨[], [], [], false, perfs.length⟩ := by
  cases perfs with
  | nil => simp [rank_sector]
  | cons a l =>
    have h' : (a :: l).length < mf := h
    simp only [rank_sector, List.isEmpty_cons, Bool.false_eq_true, if_false,
      if_pos h']

theorem rank_sector_rankings_getD {sc sn wd : String} {perfs : List Perf}
    {prior : List PriorRow} {qt mf : Nat} {i : Nat}
    (hne : perfs ≠ []) (hmf : mf ≤ perfs.length) (hi : i < perfs.length) :
    (rank_sector sc sn perfs wd prior qt mf).rankings.getD i defaultRow
      = rowAt perfs prior (decide (perfs.length < qt)) sc wd perfs.length i := by
  rw [rank_sector_eq_of_ge hne hmf]
  rw [List.getD_eq_getElem _ _ (by simpa using hi), List.getElem_map,
    List.getElem_range]

theorem rowAt_decile (perfs : List Perf) (prior : List PriorRow) (useQ : Bool)
    (sc wd : String) (n i : Nat) (p : Period) :
    (rowAt perfs prior useQ sc wd n i).decile p
      = (assign_deciles (column perfs p)).getD i none := by
  cases p <;> rfl

theorem rowAt_quartile (perfs : List Perf) (prior : List PriorRow) (useQ : Bool)
    (sc wd : String) (n i : Nat) (p : Period) :
    (rowAt perfs prior useQ sc wd n i).quartile p
      = (assign_quartiles (column perfs p)).getD i none := by
  cases p <;> rfl

theorem rowAt_rank (perfs : List Perf) (prior : List PriorRow) (useQ : Bool)
    (sc wd : String) (n i : Nat) (p : Period) :
    (rowAt perfs prior useQ sc wd n i).rank p
      = (assign_ranks (column perfs p)).getD i none := by
  cases p <;> rfl

theorem rowAt_streak (perfs : List Perf) (prior : List PriorRow) (useQ : Bool)
    (sc wd : String) (n i : Nat) (p : Period) :
    (rowAt perfs prior useQ sc wd n i).streak p
      = streakAt perfs prior useQ i p := by
  cases p <;> rfl

theorem streakAt_eq (perfs : List Perf) (prior : List PriorRow) (useQ : Bool)
    (i : Nat) (p : Period) :
    streakAt perfs prior useQ i p =
      if currTopAt perfs useQ i p
      then prevStreak prior (perfs.getD i defaultPerf).fund_id p + 1
      else 0 :=
  rfl

/-! ### Alert emission lemmas -/

theorem alertAt_eq_some {perfs : List Perf} {prior : List PriorRow}
    {useQ : Bool} {sc wd : String} {i : Nat} {p : Period} {a : AlertEvent}
    (h : alertAt perfs prior useQ sc wd i p = some a) :
    a.fund_id = (perfs.getD i defaultPerf).fund_id
    ∧ a.period = p
    ∧ a.streak_broken = prevStreak prior (perfs.getD i defaultPerf).fund_id p
    ∧ a.return_value
        = returnValueOf (column perfs p) ((perfs.getD i defaultPerf).ret p)
    ∧ a.curr_decile
        = (if useQ then (assign_quartiles (column perfs p)).getD i none
           else (assign_deciles (column perfs p)).getD i none)
    ∧ a.prev_decile = 1 := by
  unfold alertAt at h
  cases useQ with
  | false =>
    simp only [Bool.false_eq_true, if_false] at h
    split at h
    · rcases Option.some.injEq .. ▸ h with rfl
      exact ⟨rfl, rfl, rfl, rfl, rfl, rfl⟩
    · exact absurd h (by simp)
  | true =>
    simp only [if_true] at h
    split at h
    · rcases Option.some.injEq .. ▸ h with rfl
      exact ⟨rfl, rfl, rfl, rfl, rfl, rfl⟩
    · exact absurd h (by simp)

theorem alertAt_isSome_iff {perfs : List Perf} {prior : List PriorRow}
    {useQ : Bool} {sc wd : String} {i : Nat} {p : Period} :
    (alertAt perfs prior useQ sc wd i p).isSome
      = (wasTop useQ prior (perfs.getD i defaultPerf).fund_id p
          && !(currTopAt perfs useQ i p)) := by
  unfold alertAt currTopAt inTop
  cases useQ with
  | false =>
    simp only [Bool.false_eq_true, if_false]
    split <;> rename_i hcond <;> simp_all
  | true =>
    simp only [if_true]
    split <;> rename_i hcond <;> simp_all

theorem wasTop_of_priorFor_none {useQ : Bool} {prior : List PriorRow}
    {fid : String} {p : Period} (h : priorFor prior fid = none) :
    wasTop useQ prior fid p = false := by
  unfold wasTop
  rw [h]
  rfl

/-! ### Counting alerts -/

theorem sum_map_range_zero {t : Nat → Nat} {n : Nat}
    (h : ∀ j, j < n → t j = 0) : ((List.range n).map t).sum = 0 := by
  induction n with
  | zero => simp
  | succ n ih =>
    rw [List.range_succ, List.map_append, List.sum_append]
    simp [ih (fun j hj => h j (by omega)), h n (by omega)]

theorem sum_map_range_single {t : Nat → Nat} {n i : Nat} (hi : i < n)
    (hz : ∀ j, j < n → j ≠ i → t j = 0) :
    ((List.range n).map t).sum = t i := by
  induction n with
  | zero => omega
  | succ n ih =>
    rw [List.range_succ, List.map_append, List.sum_append]
    by_cases hin : i = n
    · subst hin
      rw [sum_map_range_zero (fun j hj => hz j (by omega) (by omega))]
      simp
    · rw [ih (by omega) (fun j hj hne => hz j (by omega) hne)]
      simp [hz n (by omega) (fun he => hin he.symm)]

theorem filterMap_cons_toList {α β : Type} (g : α → Option β) (x : α)
    (l : List α) :
    List.filterMap g (x :: l) = (g x).toList ++ List.filterMap g l := by
  rw [List.filterMap_cons]
  cases g x <;> simp

theorem countP_filterMap_periods (g : Period → Option AlertEvent)
    (q : AlertEvent → Bool) (p : Period)
    (hother : ∀ p' a, g p' = some a → p' ≠ p → q a = false) :
    (periods.filterMap g).countP q = ((g p).toList).countP q := by
  have h0 : ∀ p', p' ≠ p → ((g p').toList).countP q = 0 := by
    intro p' hne
    cases hg : g p' with
    | none => simp
    | some a => simp [List.countP_cons, hother p' a hg hne]
  show (List.filterMap g [Period.m1, Period.m3, Period.m6]).countP q = _
  rw [filterMap_cons_toList, filterMap_cons_toList, filterMap_cons_toList,
    List.filterMap_nil, List.append_nil, List.countP_append, List.countP_append]
  cases p with
  | m1 => rw [h0 Period.m3 (by simp), h0 Period.m6 (by simp)]; omega
  | m3 => rw [h0 Period.m1 (by simp), h0 Period.m6 (by simp)]; omega
  | m6 => rw [h0 Period.m1 (by simp), h0 Period.m3 (by simp)]; omega

theorem fund_id_injective {perfs : List Perf}
    (hnd : (perfs.map Perf.fund_id).Nodup)
    {i j : Nat} (hi : i < perfs.length) (hj : j < perfs.length)
    (h : (perfs.getD i defaultPerf).fund_id = (perfs.getD j defaultPerf).fund_id) :
    i = j := by
  have hi2 : i < (perfs.map Perf.fund_id).length := by simpa using hi
  have hj2 : j < (perfs.map Perf.fund_id).length := by simpa using hj
  have h1 : (perfs.map Perf.fund_id)[i] = (perfs.map Perf.fund_id)[j] := by
    rw [List.getElem_map, List.getElem_map,
      ← List.getD_eq_getElem perfs defaultPerf hi,
      ← List.getD_eq_getElem perfs defaultPerf hj]
    exact h
  exact (List.Nodup.getElem_inj_iff hnd).mp h1

theorem alerts_countP_eq {sc sn wd : String} {perfs : List Perf}
    {prior : List PriorRow} {qt mf : Nat} {f : String} {p : Period} {i : Nat}
    (hne : perfs ≠ []) (hmf : mf ≤ perfs.length)
    (hnd : (perfs.map Perf.fund_id).Nodup)
    (hi : i < perfs.length) (hf : (perfs.getD i defaultPerf).fund_id = f) :
    (rank_sector sc sn perfs wd prior qt mf).alerts.countP
        (fun a => decide (a.fund_id = f ∧ a.period = p))
      = if wasTop (decide (perfs.length < qt)) prior f p
            && !(currTopAt perfs (decide (perfs.length < qt)) i p)
        then 1 else 0 := by
  rw [rank_sector_eq_of_ge hne hmf]
  show ((List.range perfs.length).flatMap fun j =>
      periods.filterMap
        (alertAt perfs prior (decide (perfs.length < qt)) sc wd j)).countP
      (fun a => decide (a.fund_id = f ∧ a.period = p)) = _
  rw [List.countP_flatMap]
  have hz : ∀ j, j < perfs.length → j ≠ i →
      (List.countP (fun a => decide (a.fund_id = f ∧ a.period = p)) ∘ fun j =>
        periods.filterMap
          (alertAt perfs prior (decide (perfs.length < qt)) sc wd j)) j = 0 := by
    intro j hj hji
    show (periods.filterMap
        (alertAt perfs prior (decide (perfs.length < qt)) sc wd j)).countP
        (fun a => decide (a.fund_id = f ∧ a.period = p)) = 0
    refine List.countP_eq_zero.mpr fun a ha => ?_
    rcases List.mem_filterMap.mp ha with ⟨p', -, hpa⟩
    rcases alertAt_eq_some hpa with ⟨hfid, -, -, -, -, -⟩
    simp only [decide_eq_true_eq, not_and]
    intro haf
    exfalso
    apply hji
    apply fund_id_injective hnd hj hi
    rw [hfid] at haf
    rw [haf, ← hf]
  rw [sum_map_range_single hi hz]
  show (periods.filterMap
      (alertAt perfs prior (decide (perfs.length < qt)) sc wd i)).countP
      (fun a => decide (a.fund_id = f ∧ a.period = p)) = _
  have hother : ∀ p' a,
      alertAt perfs prior (decide (perfs.length < qt)) sc wd i p' = some a →
      p' ≠ p → (fun a => decide (a.fund_id = f ∧ a.period = p)) a = false := by
    intro p' a ha hne'
    rcases alertAt_eq_some ha with ⟨-, hper, -, -, -, -⟩
    simp only [decide_eq_false_iff_not]
    rintro ⟨-, hpp⟩
    exact hne' (hper ▸ hpp)
  rw [countP_filterMap_periods _ _ p hother]
  have hs := @alertAt_isSome_iff perfs prior (decide (perfs.length < qt)) sc wd i p
  rw [hf] at hs
  cases halert : alertAt perfs prior (decide (perfs.length < qt)) sc wd i p with
  | none =>
    rw [halert] at hs
    rw [← hs]
    simp
  | some a =>
    rw [halert] at hs
    rw [← hs]
    rcases alertAt_eq_some halert with ⟨hfid, hper, -, -, -, -⟩
    have hq : decide (a.fund_id = f ∧ a.period = p) = true := by
      simp only [decide_eq_true_eq]
      exact ⟨by rw [hfid, hf], hper⟩
    simp only [Option.toList_some, Option.isSome_some]
    rw [List.countP_cons, hq]
    simp

/-! ### Arithmetic bounds for the buckets -/

theorem decileOf_bounds (n r : Nat) : 1 ≤ decileOf n r ∧ decileOf n r ≤ 10 := by
  unfold decileOf
  omega

theorem quartileOf_bounds (n r : Nat) : 1 ≤ quartileOf n r ∧ quartileOf n r ≤ 4 := by
  unfold quartileOf
  omega

theorem decileOf_mono {n r s : Nat} (h : r ≤ s) : decileOf n r ≤ decileOf n s := by
  unfold decileOf
  have h1 : (r * 10 + n - 1) / n ≤ (s * 10 + n - 1) / n :=
    Nat.div_le_div_right (by omega)
  omega

theorem quartileOf_mono {n r s : Nat} (h : r ≤ s) :
    quartileOf n r ≤ quartileOf n s := by
  unfold quartileOf
  have h1 : (r * 4 + n - 1) / n ≤ (s * 4 + n - 1) / n :=
    Nat.div_le_div_right (by omega)
  omega

theorem firstRank_singleton {col : List (Option ℚ)} {i : Nat} {v : ℚ}
    (hpool : (validPairs col).length < 2) (hmem : (i, v) ∈ validPairs col) :
    firstRank (validPairs col) (i, v) = 1 := by
  have hlen : (validPairs col).length = 1 := by
    have := List.length_pos.mpr (List.ne_nil_of_mem hmem)
    omega
  rcases List.length_eq_one.mp hlen with ⟨a, ha⟩
  have hav : (i, v) = a := List.mem_singleton.mp (ha ▸ hmem)
  have ha2 : validPairs col = [(i, v)] := by rw [ha, ← hav]
  unfold firstRank
  rw [ha2, List.countP_cons, List.countP_nil]
  have hb : beats (i, v) (i, v) = false := by
    simp only [beats, decide_eq_false_iff_not]
    exact Prec_irrefl (i, v)
  rw [hb]
  rfl

/-! ### Claim theorems -/

/-- C7: an invocation whose population is below `min_funds` returns empty
rankings, alerts and top-3, while still reporting the population `n`. -/
theorem C7_below_min_funds_skips (sc sn wd : String) (perfs : List Perf)
    (prior : List PriorRow) (qt mf : Nat) (h : perfs.length < mf) :
    rank_sector sc sn perfs wd prior qt mf
      = ⟨[], [], [], false, perfs.length⟩ :=
  rank_sector_eq_of_lt h

/-- Witness for C7 at a three-fund sector with `min_funds = 5`. -/
theorem C7_witness :
    rank_sector "EQ" "Equity" exampleThree "2026-02-16" [] 20 5
      = ⟨[], [], [], false, 3⟩ :=
  C7_below_min_funds_skips "EQ" "Equity" "2026-02-16" exampleThree [] 20 5
    (by decide)

/-- C6: this week's streak for every fund and period is the prior streak
(0 when the fund or field is absent) plus one if the fund is top tier this
week under the current mode, and 0 otherwise. -/
theorem C6_streak_recurrence (sc sn wd : String) (perfs : List Perf)
    (prior : List PriorRow) (qt mf : Nat)
    (hne : perfs ≠ []) (hmf : mf ≤ perfs.length) :
    ∀ i, i < perfs.length → ∀ p,
      ((rank_sector sc sn perfs wd prior qt mf).rankings.getD i defaultRow).streak p
        = if currTopAt perfs (decide (perfs.length < qt)) i p
          then prevStreak prior (perfs.getD i defaultPerf).fund_id p + 1
          else 0 := by
  intro i hi p
  rw [rank_sector_rankings_getD hne hmf hi, rowAt_streak, streakAt_eq]

/-- Witness for C6: fund B of `exampleNullReturn` is not top tier for the
1-month period, so its streak resets to 0. -/
theorem C6_witness :
    ((rank_sector "S" "SN" exampleNullReturn "w" [examplePrior] 20 5).rankings.getD
        1 defaultRow).streak Period.m1 = 0 := by
  have h := C6_streak_recurrence "S" "SN" "w" exampleNullReturn [examplePrior]
    20 5 (by decide) (by decide) 1 (by decide) Period.m1
  rw [h]
  decide

/-- Counterexample to C2 as stated: the 1-month valid pool of
`exampleSmallPool` has exactly one member, yet that member's rank is 1,
not null (only decile and quartile are null). -/
theorem C2_counterexample :
    (validPairs (column exampleSmallPool Period.m1)).length = 1
    ∧ ((rank_sector "S" "SN" exampleSmallPool "w" [] 20 5).rankings.getD
        0 defaultRow).rank_1m = some 1 := by
  constructor
  · decide
  · decide

/-- C2 amended: when a period's valid pool has fewer than 2 members every
fund gets null decile and quartile for that period, but rank is null only
for funds whose own return is null — a single-member pool's member still
receives rank 1. -/
theorem C2_amended_small_pool (sc sn wd : String) (perfs : List Perf)
    (prior : List PriorRow) (qt mf : Nat) (p : Period)
    (hne : perfs ≠ []) (hmf : mf ≤ perfs.length)
    (hpool : (validPairs (column perfs p)).length < 2) :
    ∀ i, i < perfs.length →
      ((rank_sector sc sn perfs wd prior qt mf).rankings.getD i defaultRow).decile p
        = none
      ∧ ((rank_sector sc sn perfs wd prior qt mf).rankings.getD i defaultRow).quartile p
        = none
      ∧ ((rank_sector sc sn perfs wd prior qt mf).rankings.getD i defaultRow).rank p
        = (if (perfs.getD i defaultPerf).ret p = none then none else some 1) := by
  intro i hi
  rw [rank_sector_rankings_getD hne hmf hi, rowAt_decile, rowAt_quartile,
    rowAt_rank]
  have hcl : i < (column perfs p).length := by
    simpa [column_length] using hi
  refine ⟨assign_deciles_getD_small hpool hcl,
    assign_quartiles_getD_small hpool hcl, ?_⟩
  cases hv : (perfs.getD i defaultPerf).ret p with
  | none =>
    rw [if_pos rfl]
    exact assign_ranks_getD_none hcl (by rw [column_getD hi, hv])
  | some v =>
    rw [if_neg (by simp)]
    have hv' : (column perfs p).getD i none = some v := by
      rw [column_getD hi, hv]
    rw [assign_ranks_getD_some hcl hv',
      firstRank_singleton hpool (mem_validPairs.mpr ⟨hcl, hv'⟩)]

/-- Witness for C2 amended at `exampleSmallPool`, 1-month period, fund 1
(null return, so null rank). -/
theorem C2_witness :
    ((rank_sector "S" "SN" exampleSmallPool "w" [] 20 5).rankings.getD
        1 defaultRow).decile Period.m1 = none
    ∧ ((rank_sector "S" "SN" exampleSmallPool "w" [] 20 5).rankings.getD
        1 defaultRow).quartile Period.m1 = none
    ∧ ((rank_sector "S" "SN" exampleSmallPool "w" [] 20 5).rankings.getD
        1 defaultRow).rank Period.m1
      = (if (exampleSmallPool.getD 1 defaultPerf).ret Period.m1 = none
         then none else some 1) :=
  C2_amended_small_pool "S" "SN" "w" exampleSmallPool [] 20 5 Period.m1
    (by decide) (by decide) (by decide) 1 (by decide)

/-- Counterexample to C3 as stated: with 3 funds (below `min_funds` 5) the
engine reports `use_quartiles = false` even though 3 < 20, so the claimed
iff fails for populations below `min_funds`. -/
theorem C3_counterexample :
    (rank_sector "S" "SN" exampleThree "w" [] 20 5).use_quartiles = false
    ∧ (rank_sector "S" "SN" exampleThree "w" [] 20 5).n = 3
    ∧ 3 < 20 :=
  ⟨by decide, by decide, by omega⟩

/-- C3 amended: `use_quartiles` is true iff `n < quartile_threshold` for
invocations that actually rank (nonempty, `n ≥ min_funds`); below
`min_funds` (or for an empty sector) the flag is reported as false.  Under
quartile mode top-tier membership (a non-zero streak) requires quartile 1,
otherwise decile 1. -/
theorem C3_amended_mode_flag (sc sn wd : String) (perfs : List Perf)
    (prior : List PriorRow) (qt mf : Nat) :
    (perfs ≠ [] → mf ≤ perfs.length →
      ((rank_sector sc sn perfs wd prior qt mf).use_quartiles = true
        ↔ perfs.length < qt))
    ∧ (perfs.length < mf ∨ perfs = [] →
      (rank_sector sc sn perfs wd prior qt mf).use_quartiles = false)
    ∧ (∀ i, i < perfs.length → ∀ p, perfs ≠ [] → mf ≤ perfs.length →
        ((rank_sector sc sn perfs wd prior qt mf).rankings.getD i
            defaultRow).streak p ≠ 0 →
        ((rank_sector sc sn perfs wd prior qt mf).use_quartiles = true →
          ((rank_sector sc sn perfs wd prior qt mf).rankings.getD i
              defaultRow).quartile p = some 1)
        ∧ ((rank_sector sc sn perfs wd prior qt mf).use_quartiles = false →
          ((rank_sector sc sn perfs wd prior qt mf).rankings.getD i
              defaultRow).decile p = some 1)) := by
  refine ⟨?_, ?_, ?_⟩
  · intro hne hmf
    rw [rank_sector_eq_of_ge hne hmf]
    show decide (perfs.length < qt) = true ↔ _
    exact decide_eq_true_iff
  · intro h
    rcases h with h | rfl
    · rw [rank_sector_eq_of_lt h]
    · rfl
  · intro i hi p hne hmf hstreak
    rw [rank_sector_rankings_getD hne hmf hi, rowAt_streak, streakAt_eq]
      at hstreak
    have htop : currTopAt perfs (decide (perfs.length < qt)) i p = true := by
      by_contra hfalse
      rw [Bool.not_eq_true] at hfalse
      rw [hfalse] at hstreak
      simp at hstreak
    constructor
    · intro huse
      have huse' : decide (perfs.length < qt) = true := by
        rw [rank_sector_eq_of_ge hne hmf] at huse
        exact huse
      unfold currTopAt inTop at htop
      rw [huse'] at htop
      simp only [if_true, beq_iff_eq] at htop
      rw [rank_sector_rankings_getD hne hmf hi, rowAt_quartile]
      exact htop
    · intro huse
      have huse' : decide (perfs.length < qt) = false := by
        rw [rank_sector_eq_of_ge hne hmf] at huse
        exact huse
      unfold currTopAt inTop at htop
      rw [huse'] at htop
      simp only [Bool.false_eq_true, if_false, beq_iff_eq] at htop
      rw [rank_sector_rankings_getD hne hmf hi, rowAt_decile]
      exact htop

/-- Witness for C3 amended: at `exampleNullReturn` (5 funds, threshold 20)
the flag is true and 5 < 20. -/
theorem C3_witness :
    (rank_sector "S" "SN" exampleNullReturn "w" [] 20 5).use_quartiles = true := by
  have h := (C3_amended_mode_flag "S" "SN" "w" exampleNullReturn [] 20 5).1
    (by decide) (by decide)
  exact h.mpr (by decide)

/-- Counterexample to C4 as stated: fund A of `exampleSmallPool` has a
non-null 1-month return yet a null 1-month decile, because the valid pool
has a single member. -/
theorem C4_counterexample :
    (exampleSmallPool.getD 0 defaultPerf).return_1m = some 3
    ∧ ((rank_sector "S" "SN" exampleSmallPool "w" [] 20 5).rankings.getD
        0 defaultRow).decile_1m = none :=
  ⟨by decide, by decide⟩

/-- C4 amended: decile ∈ [1,10], quartile ∈ [1,4] and rank ≥ 1 when
non-null; rank is null exactly when the fund's return is null; decile and
quartile are null exactly when the fund's return is null or the period's
valid pool has fewer than two members. -/
theorem C4_amended_field_invariants (sc sn wd : String) (perfs : List Perf)
    (prior : List PriorRow) (qt mf : Nat) (p : Period)
    (hne : perfs ≠ []) (hmf : mf ≤ perfs.length) :
    ∀ i, i < perfs.length →
      (∀ d, ((rank_sector sc sn perfs wd prior qt mf).rankings.getD i
          defaultRow).decile p = some d → 1 ≤ d ∧ d ≤ 10)
      ∧ (∀ q, ((rank_sector sc sn perfs wd prior qt mf).rankings.getD i
          defaultRow).quartile p = some q → 1 ≤ q ∧ q ≤ 4)
      ∧ (∀ r, ((rank_sector sc sn perfs wd prior qt mf).rankings.getD i
          defaultRow).rank p = some r → 1 ≤ r)
      ∧ (((rank_sector sc sn perfs wd prior qt mf).rankings.getD i
          defaultRow).rank p = none ↔ (perfs.getD i defaultPerf).ret p = none)
      ∧ (((rank_sector sc sn perfs wd prior qt mf).rankings.getD i
          defaultRow).decile p = none
        ↔ ((perfs.getD i defaultPerf).ret p = none
            ∨ (validPairs (column perfs p)).length < 2))
      ∧ (((rank_sector sc sn perfs wd prior qt mf).rankings.getD i
          defaultRow).quartile p = none
        ↔ ((perfs.getD i defaultPerf).ret p = none
            ∨ (validPairs (column perfs p)).length < 2)) := by
  intro i hi
  rw [rank_sector_rankings_getD hne hmf hi, rowAt_decile, rowAt_quartile,
    rowAt_rank]
  have hcl : i < (column perfs p).length := by
    simpa [column_length] using hi
  have hrank_none : (perfs.getD i defaultPerf).ret p = none →
      (assign_ranks (column perfs p)).getD i none = none := fun hv =>
    assign_ranks_getD_none hcl (by rw [column_getD hi, hv])
  have hrank_iff : (assign_ranks (column perfs p)).getD i none = none
      ↔ (perfs.getD i defaultPerf).ret p = none := by
    constructor
    · intro hr
      cases hv : (perfs.getD i defaultPerf).ret p with
      | none => rfl
      | some v =>
        rw [assign_ranks_getD_some hcl (by rw [column_getD hi, hv])] at hr
        exact absurd hr (by simp)
    · exact hrank_none
  have hrank_pos : ∀ r, (assign_ranks (column perfs p)).getD i none = some r
      → 1 ≤ r := by
    intro r hr
    cases hv : (perfs.getD i defaultPerf).ret p with
    | none => rw [hrank_none hv] at hr; exact absurd hr (by simp)
    | some v =>
      rw [assign_ranks_getD_some hcl (by rw [column_getD hi, hv])] at hr
      rw [← Option.some.inj hr]
      unfold firstRank
      omega
  by_cases hpool : (validPairs (column perfs p)).length < 2
  · rw [assign_deciles_getD_small hpool hcl, assign_quartiles_getD_small hpool hcl]
    exact ⟨by simp, by simp, hrank_pos, hrank_iff, by simp [hpool],
      by simp [hpool]⟩
  · have h2 : 2 ≤ (validPairs (column perfs p)).length := by omega
    cases hv : (perfs.getD i defaultPerf).ret p with
    | none =>
      have hcv : (column perfs p).getD i none = none := by
        rw [column_getD hi, hv]
      rw [assign_deciles_getD_none hcl hcv, assign_quartiles_getD_none hcl hcv,
        hrank_none hv]
      exact ⟨by simp, by simp, by simp, by simp, by simp, by simp⟩
    | some v =>
      have hcv : (column perfs p).getD i none = some v := by
        rw [column_getD hi, hv]
      rw [assign_deciles_getD_some h2 hcl hcv,
        assign_quartiles_getD_some h2 hcl hcv,
        assign_ranks_getD_some hcl hcv]
      refine ⟨?_, ?_, ?_, by simp, ?_, ?_⟩
      · intro d hd
        rw [← Option.some.inj hd]
        exact decileOf_bounds _ _
      · intro q hq
        rw [← Option.some.inj hq]
        exact quartileOf_bounds _ _
      · intro r hr
        rw [← Option.some.inj hr]
        unfold firstRank
        omega
      · constructor
        · intro h
          exact absurd h (by simp)
        · rintro (h | h)
          · exact absurd h (by simp)
          · omega
      · constructor
        · intro h
          exact absurd h (by simp)
        · rintro (h | h)
          · exact absurd h (by simp)
          · omega

/-- Witness for C4 amended at `exampleNullReturn`, fund B, 1-month. -/
theorem C4_witness :
    ((rank_sector "S" "SN" exampleNullReturn "w" [] 20 5).rankings.getD
        1 defaultRow).rank Period.m1 = none
      ↔ (exampleNullReturn.getD 1 defaultPerf).ret Period.m1 = none := by
  have h := C4_amended_field_invariants "S" "SN" "w" exampleNullReturn [] 20 5
    Period.m1 (by decide) (by decide) 1 (by decide)
  exact h.2.2.2.1

/-- C1: for an invocation with `n ≥ min_funds` and distinct fund ids, an
alert for (fund, period) appears exactly once iff the fund was top tier in
the prior snapshot for that period (under the current mode) and is not top
tier this week, its `streak_broken` equals the prior streak, and no alert
exists for a fund absent from the prior snapshot. -/
theorem C1_alert_firing_law (sc sn wd : String) (perfs : List Perf)
    (prior : List PriorRow) (qt mf : Nat) (f : String) (p : Period) (i : Nat)
    (hne : perfs ≠ []) (hmf : mf ≤ perfs.length)
    (hnd : (perfs.map Perf.fund_id).Nodup)
    (hi : i < perfs.length) (hf : (perfs.getD i defaultPerf).fund_id = f) :
    ((rank_sector sc sn perfs wd prior qt mf).alerts.countP
        (fun a => decide (a.fund_id = f ∧ a.period = p))
      = if wasTop (decide (perfs.length < qt)) prior f p
            && !(currTopAt perfs (decide (perfs.length < qt)) i p)
        then 1 else 0)
    ∧ (∀ a ∈ (rank_sector sc sn perfs wd prior qt mf).alerts,
        a.fund_id = f → a.period = p →
        a.streak_broken = prevStreak prior f p)
    ∧ (priorFor prior f = none →
        (rank_sector sc sn perfs wd prior qt mf).alerts.countP
          (fun a => decide (a.fund_id = f ∧ a.period = p)) = 0) := by
  refine ⟨alerts_countP_eq hne hmf hnd hi hf, ?_, ?_⟩
  · intro a ha haf hap
    rw [rank_sector_eq_of_ge hne hmf] at ha
    rcases List.mem_flatMap.mp ha with ⟨j, -, haj⟩
    rcases List.mem_filterMap.mp haj with ⟨p', -, hpa⟩
    rcases alertAt_eq_some hpa with ⟨hfid, hper, hstreak, -, -, -⟩
    have h1 : (perfs.getD j defaultPerf).fund_id = f := by
      rw [← hfid]
      exact haf
    have h2 : p' = p := by
      rw [← hper]
      exact hap
    rw [hstreak, h1, h2]
  · intro hnone
    rw [alerts_countP_eq hne hmf hnd hi hf, wasTop_of_priorFor_none hnone]
    simp

/-- Witness for C1: fund A of `exampleNullReturn` was in quartile 1 for the
1-month period last week and has a null return this week, so exactly one
alert for (A, 1m) is emitted. -/
theorem C1_witness :
    (rank_sector "S" "SN" exampleNullReturn "w" [examplePrior] 20 5).alerts.countP
        (fun a => decide (a.fund_id = "A" ∧ a.period = Period.m1)) = 1 := by
  have h := (C1_alert_firing_law "S" "SN" "w" exampleNullReturn [examplePrior]
    20 5 "A" Period.m1 0 (by decide) (by decide) (by decide) (by decide)
    (by decide)).1
  rw [h]
  decide

/-- Counterexample to C10 as stated: the single alert emitted for fund A of
`exampleNullReturn` (null 1-month return this week, prior quartile 1)
carries `return_value` NaN (modelled `none`), not the float 0.0 — because
pandas stores the null as NaN in the float column and NaN is truthy, so
`float(row.get(...) or 0)` keeps it. -/
theorem C10_counterexample :
    ((rank_sector "S" "SN" exampleNullReturn "w" [examplePrior] 20 5).alerts.map
        AlertEvent.return_value) = [none]
    ∧ ((rank_sector "S" "SN" exampleNullReturn "w" [examplePrior] 20 5).alerts.map
        AlertEvent.curr_decile) = [none]
    ∧ (exampleNullReturn.getD 0 defaultPerf).return_1m = none :=
  ⟨by decide, by decide, by decide⟩

/-- C10 amended: in every emitted alert, `curr_decile` is null when the
fund's return for the alert's period is null; `return_value` equals the
return when it is present (0.0 for an exact 0), and for a null return it
is NaN (modelled as absent) whenever any fund in the sector has a value
for that period, degenerating to 0.0 only when the whole column is null. -/
theorem C10_amended_return_value (sc sn wd : String) (perfs : List Perf)
    (prior : List PriorRow) (qt mf : Nat)
    (hne : perfs ≠ []) (hmf : mf ≤ perfs.length) :
    ∀ a ∈ (rank_sector sc sn perfs wd prior qt mf).alerts,
      ∃ i, i < perfs.length
        ∧ a.fund_id = (perfs.getD i defaultPerf).fund_id
        ∧ ((perfs.getD i defaultPerf).ret a.period = none →
            a.curr_decile = none
            ∧ a.return_value
                = (if colHasValue (column perfs a.period) then none else some 0))
        ∧ (∀ v, (perfs.getD i defaultPerf).ret a.period = some v →
            a.return_value = some v) := by
  intro a ha
  rw [rank_sector_eq_of_ge hne hmf] at ha
  rcases List.mem_flatMap.mp ha with ⟨j, hjmem, haj⟩
  rcases List.mem_filterMap.mp haj with ⟨p', -, hpa⟩
  have hj : j < perfs.length := List.mem_range.mp hjmem
  rcases alertAt_eq_some hpa with ⟨hfid, hper, -, hrv, hcd, -⟩
  subst hper
  refine ⟨j, hj, hfid, ?_, ?_⟩
  · intro hret
    have hclen : j < (column perfs a.period).length := by
      simpa [column_length] using hj
    have hcol : (column perfs a.period).getD j none = none := by
      rw [column_getD hj, hret]
    constructor
    · rw [hcd]
      split
      · exact assign_quartiles_getD_none hclen hcol
      · exact assign_deciles_getD_none hclen hcol
    · rw [hrv, hret]
      rfl
  · intro v hret
    rw [hrv, hret]
    rfl

/-- Witness for C10 amended at the concrete alert of `exampleNullReturn`. -/
theorem C10_witness :
    ∃ i, i < exampleNullReturn.length
      ∧ exampleAlert.fund_id = (exampleNullReturn.getD i defaultPerf).fund_id
      ∧ ((exampleNullReturn.getD i defaultPerf).ret exampleAlert.period = none →
          exampleAlert.curr_decile = none
          ∧ exampleAlert.return_value
              = (if colHasValue (column exampleNullReturn exampleAlert.period)
                 then none else some 0))
      ∧ (∀ v, (exampleNullReturn.getD i defaultPerf).ret exampleAlert.period
            = some v → exampleAlert.return_value = some v) :=
  C10_amended_return_value "S" "SN" "w" exampleNullReturn [examplePrior] 20 5
    (by decide) (by decide) exampleAlert (by decide)

/-- Counterexample to C9 as stated: in a 20-member pool the funds at ranks
5 and 6 share decile 3, yet their quartiles are 1 and 2 — so the chained
implication "decile(f1) ≤ decile(f2) ⇒ quartile(f1) ≤ quartile(f2)" fails
(here f1 is the rank-6 fund at position 5, f2 the rank-5 fund at
position 4: decile 3 ≤ 3 but quartile 2 > 1). -/
theorem C9_counterexample :
    (assign_deciles exampleTwenty).getD 5 none = some 3
    ∧ (assign_deciles exampleTwenty).getD 4 none = some 3
    ∧ (assign_quartiles exampleTwenty).getD 5 none = some 2
    ∧ (assign_quartiles exampleTwenty).getD 4 none = some 1 :=
  ⟨by decide, by decide, by decide, by decide⟩

/-- C9 amended: return(f1) > return(f2) implies rank(f1) ≤ rank(f2), and
rank(f1) ≤ rank(f2) implies both decile(f1) ≤ decile(f2) and
quartile(f1) ≤ quartile(f2) (the cascade follows from the rank order, not
from the decile order). -/
theorem C9_amended_monotonicity (col : List (Option ℚ)) (i j : Nat) (v w : ℚ)
    (hi : i < col.length) (hj : j < col.length)
    (hvi : col.getD i none = some v) (hwj : col.getD j none = some w) :
    (∀ ri rj, (assign_ranks col).getD i none = some ri →
        (assign_ranks col).getD j none = some rj → w < v → ri ≤ rj)
    ∧ (∀ ri rj di dj, (assign_ranks col).getD i none = some ri →
        (assign_ranks col).getD j none = some rj →
        (assign_deciles col).getD i none = some di →
        (assign_deciles col).getD j none = some dj →
        ri ≤ rj → di ≤ dj)
    ∧ (∀ ri rj qi qj, (assign_ranks col).getD i none = some ri →
        (assign_ranks col).getD j none = some rj →
        (assign_quartiles col).getD i none = some qi →
        (assign_quartiles col).getD j none = some qj →
        ri ≤ rj → qi ≤ qj) := by
  have hri := assign_ranks_getD_some hi hvi
  have hrj := assign_ranks_getD_some hj hwj
  refine ⟨?_, ?_, ?_⟩
  · intro ri rj h1 h2 hw
    rw [hri] at h1
    rw [hrj] at h2
    rw [← Option.some.inj h1, ← Option.some.inj h2]
    unfold firstRank
    have hsub : (validPairs col).countP (fun jw => beats jw (i, v))
        ≤ (validPairs col).countP (fun jw => beats jw (j, w)) := by
      apply List.countP_mono_left
      intro x hx hbx
      rcases beats_eq_true.mp hbx with hlt | ⟨heq, -⟩
      · exact beats_eq_true.mpr (Or.inl (lt_trans hw hlt))
      · refine beats_eq_true.mpr (Or.inl ?_)
        rw [heq]
        exact hw
    omega
  · intro ri rj di dj h1 h2 h3 h4 hrr
    by_cases hpool : (validPairs col).length < 2
    · rw [assign_deciles_getD_small hpool hi] at h3
      exact absurd h3 (by simp)
    · have h2le : 2 ≤ (validPairs col).length := by omega
      rw [assign_deciles_getD_some h2le hi hvi] at h3
      rw [assign_deciles_getD_some h2le hj hwj] at h4
      rw [hri] at h1
      rw [hrj] at h2
      rw [← Option.some.inj h3, ← Option.some.inj h4]
      apply decileOf_mono
      rw [Option.some.inj h1, Option.some.inj h2]
      exact hrr
  · intro ri rj qi qj h1 h2 h3 h4 hrr
    by_cases hpool : (validPairs col).length < 2
    · rw [assign_quartiles_getD_small hpool hi] at h3
      exact absurd h3 (by simp)
    · have h2le : 2 ≤ (validPairs col).length := by omega
      rw [assign_quartiles_getD_some h2le hi hvi] at h3
      rw [assign_quartiles_getD_some h2le hj hwj] at h4
      rw [hri] at h1
      rw [hrj] at h2
      rw [← Option.some.inj h3, ← Option.some.inj h4]
      apply quartileOf_mono
      rw [Option.some.inj h1, Option.some.inj h2]
      exact hrr

/-- Witness for C9 amended: positions 0 and 1 of `exampleTwenty` hold
returns 20 > 19 with ranks 1 and 2. -/
theorem C9_witness :
    (assign_ranks exampleTwenty).getD 0 none = some 1
    ∧ (assign_ranks exampleTwenty).getD 1 none = some 2
    ∧ (1 : Nat) ≤ 2 := by
  refine ⟨by decide, by decide, ?_⟩
  exact (C9_amended_monotonicity exampleTwenty 0 1 20 19 (by decide) (by decide)
    (by decide) (by decide)).1 1 2 (by decide) (by decide) (by decide)

/-- C5: for a valid pool of size at least 2, each fund's rank is its
1-based position in the pool sorted by return descending with exact ties
broken by original input order, and decile/quartile are the ceiling
buckets of that rank clamped to their ranges. -/
theorem C5_rank_decile_quartile_formulas (col : List (Option ℚ))
    (h2 : 2 ≤ (validPairs col).length) :
    (∀ k, ∀ hk : k < (sortDesc (validPairs col)).length,
      (assign_ranks col).getD ((sortDesc (validPairs col)).get ⟨k, hk⟩).1 none
        = some (k + 1))
    ∧ (∀ i, i < col.length →
        (assign_deciles col).getD i none
          = ((assign_ranks col).getD i none).map
              (decileOf (validPairs col).length)
        ∧ (assign_quartiles col).getD i none
          = ((assign_ranks col).getD i none).map
              (quartileOf (validPairs col).length)) := by
  constructor
  · intro k hk
    have hmem : (sortDesc (validPairs col)).get ⟨k, hk⟩ ∈ validPairs col :=
      (sortDesc_perm (validPairs col)).mem_iff.mp (List.get_mem _ _ hk)
    rcases mem_validPairs.mp hmem with ⟨hlt, hgd⟩
    rw [assign_ranks_getD_some hlt hgd]
    refine congrArg some ?_
    show firstRank (validPairs col) ((sortDesc (validPairs col)).get ⟨k, hk⟩)
      = k + 1
    rw [List.get_eq_getElem]
    exact firstRank_sortDesc_getElem col hk
  · intro i hi
    cases hv : col.getD i none with
    | none =>
      rw [assign_deciles_getD_none hi hv, assign_quartiles_getD_none hi hv,
        assign_ranks_getD_none hi hv]
      exact ⟨rfl, rfl⟩
    | some v =>
      rw [assign_deciles_getD_some h2 hi hv, assign_quartiles_getD_some h2 hi hv,
        assign_ranks_getD_some hi hv]
      exact ⟨rfl, rfl⟩

/-- Witness for C5: in `exampleTies` the head of the stable descending
sort (the 7 at position 1) has rank 1. -/
theorem C5_witness :
    (assign_ranks exampleTies).getD
        ((sortDesc (validPairs exampleTies)).get ⟨0, by decide⟩).1 none
      = some 1 :=
  (C5_rank_decile_quartile_formulas exampleTies (by decide)).1 0 (by decide)

/-! ### The top-3 digest -/

theorem top3Of_length (perfs : List Perf) (sc sn : String) :
    (top3Of perfs sc sn).length
      = min 3 (validPairs (column perfs Period.m6)).length := by
  unfold top3Of
  rw [List.length_map, List.enum_length, List.length_take,
    (sortDesc_perm _).length_eq]

theorem top3Of_getD {perfs : List Perf} {sc sn : String} {k : Nat}
    (hk3 : k < (top3Of perfs sc sn).length) :
    ∃ hks : k < (sortDesc (validPairs (column perfs Period.m6))).length,
      (top3Of perfs sc sn).getD k defaultTop3
        = ⟨k + 1,
           (perfs.getD
             ((sortDesc (validPairs (column perfs Period.m6)))[k]).1
             defaultPerf).fund_id,
           (perfs.getD
             ((sortDesc (validPairs (column perfs Period.m6)))[k]).1
             defaultPerf).fund_name,
           sc, sn,
           ((sortDesc (validPairs (column perfs Period.m6)))[k]).2,
           (perfs.getD
             ((sortDesc (validPairs (column perfs Period.m6)))[k]).1
             defaultPerf).return_3m,
           (perfs.getD
             ((sortDesc (validPairs (column perfs Period.m6)))[k]).1
             defaultPerf).return_1m⟩ := by
  have hks : k < (sortDesc (validPairs (column perfs Period.m6))).length := by
    rw [top3Of_length] at hk3
    rw [(sortDesc_perm _).length_eq]
    omega
  refine ⟨hks, ?_⟩
  unfold top3Of
  rw [List.getD_eq_getElem _ _ (by
    simpa [top3Of, List.length_map, List.enum_length] using hk3)]
  rw [List.getElem_map, List.getElem_enum, List.getElem_take]

/-- C8: with at least `min_funds` funds, the top-3 list is exactly
`top3Of`; it has `min 3 (valid pool size)` entries (never padded), its
entries carry display ranks `k+1` in descending 6-month-return order, and
the `k`-th entry is a fund with a non-null 6-month return beaten by
exactly `k` funds (higher return, or equal return and earlier input
position), carrying its 1-month and 3-month returns null-safely. -/
theorem C8_top3_selection (sc sn wd : String) (perfs : List Perf)
    (prior : List PriorRow) (qt mf : Nat)
    (hne : perfs ≠ []) (hmf : mf ≤ perfs.length) :
    ((rank_sector sc sn perfs wd prior qt mf).top3 = top3Of perfs sc sn)
    ∧ ((top3Of perfs sc sn).length
        = min 3 (validPairs (column perfs Period.m6)).length)
    ∧ (∀ k kk, k ≤ kk → kk < (top3Of perfs sc sn).length →
        ((top3Of perfs sc sn).getD kk defaultTop3).return_6m
          ≤ ((top3Of perfs sc sn).getD k defaultTop3).return_6m)
    ∧ (∀ k, k < (top3Of perfs sc sn).length →
        ((top3Of perfs sc sn).getD k defaultTop3).rank = k + 1
        ∧ ∃ i, i < perfs.length
            ∧ (perfs.getD i defaultPerf).fund_id
                = ((top3Of perfs sc sn).getD k defaultTop3).fund_id
            ∧ (perfs.getD i defaultPerf).fund_name
                = ((top3Of perfs sc sn).getD k defaultTop3).fund_name
            ∧ (perfs.getD i defaultPerf).return_6m
                = some (((top3Of perfs sc sn).getD k defaultTop3).return_6m)
            ∧ ((top3Of perfs sc sn).getD k defaultTop3).return_3m
                = (perfs.getD i defaultPerf).return_3m
            ∧ ((top3Of perfs sc sn).getD k defaultTop3).return_1m
                = (perfs.getD i defaultPerf).return_1m
            ∧ (validPairs (column perfs Period.m6)).countP
                (fun jw => beats jw
                  (i, ((top3Of perfs sc sn).getD k defaultTop3).return_6m))
              = k) := by
  refine ⟨?_, top3Of_length perfs sc sn, ?_, ?_⟩
  · rw [rank_sector_eq_of_ge hne hmf]
  · intro k kk hkk hklen
    rcases top3Of_getD hklen with ⟨hks', heq'⟩
    have hklen2 : k < (top3Of perfs sc sn).length := Nat.lt_of_le_of_lt hkk hklen
    rcases top3Of_getD hklen2 with ⟨hks, heq⟩
    rw [heq, heq']
    show ((sortDesc (validPairs (column perfs Period.m6)))[kk]).2
      ≤ ((sortDesc (validPairs (column perfs Period.m6)))[k]).2
    rcases Nat.lt_or_ge k kk with hlt | hge
    · have hp := (List.pairwise_iff_getElem.mp
        (sortDesc_pairwise (validPairs_pairwise_idx (column perfs Period.m6))))
        k kk hks hks' hlt
      rcases hp with h | ⟨h, -⟩
      · exact le_of_lt h
      · exact le_of_eq h.symm
    · have hke : k = kk := Nat.le_antisymm hkk hge
      subst hke
      exact le_refl _
  · intro k hklen
    rcases top3Of_getD hklen with ⟨hks, heq⟩
    rw [heq]
    refine ⟨rfl, ((sortDesc (validPairs (column perfs Period.m6)))[k]).1,
      ?_, rfl, rfl, ?_, rfl, rfl, ?_⟩
    · have hmem : (sortDesc (validPairs (column perfs Period.m6)))[k]
          ∈ validPairs (column perfs Period.m6) :=
        (sortDesc_perm _).mem_iff.mp (List.getElem_mem hks)
      rcases mem_validPairs.mp hmem with ⟨hlt, -⟩
      rw [← column_length perfs Period.m6]
      exact hlt
    · have hmem : (sortDesc (validPairs (column perfs Period.m6)))[k]
          ∈ validPairs (column perfs Period.m6) :=
        (sortDesc_perm _).mem_iff.mp (List.getElem_mem hks)
      rcases mem_validPairs.mp hmem with ⟨hlt, hgd⟩
      simp only [List.get_eq_getElem] at hlt hgd
      have hlt' : ((sortDesc (validPairs (column perfs Period.m6)))[k]).1
          < perfs.length := by
        rw [← column_length perfs Period.m6]
        exact hlt
      rw [@column_getD perfs Period.m6
        ((sortDesc (validPairs (column perfs Period.m6)))[k]).1 hlt'] at hgd
      exact hgd
    · show (validPairs (column perfs Period.m6)).countP
        (fun jw => beats jw ((sortDesc (validPairs (column perfs Period.m6)))[k]))
        = k
      rw [← (sortDesc_perm (validPairs (column perfs Period.m6))).countP_eq]
      exact countP_beats_of_pairwise
        (sortDesc_pairwise (validPairs_pairwise_idx (column perfs Period.m6))) hks

/-- Witness for C8 at Scenario B of the spec. -/
theorem C8_witness :
    (rank_sector "S" "SN" exampleScenB "w" [] 20 5).top3
      = top3Of exampleScenB "S" "SN" :=
  (C8_top3_selection "S" "SN" "w" exampleScenB [] 20 5 (by decide) (by decide)).1

end Fundscope
